import Mathlib

/-!
Verification of the simulated tokenizer and embedding pipeline of the
llm-exploration repository.  The definitions below are shallow embeddings of
the JavaScript/TypeScript source (src/src/types/tokenization.ts, which holds
the LanguageModelExplorer class; the same code appears in src/script.js,
src/unnamed/part_000 and src/utils.js).  JavaScript strings are modelled as
Lean String values manipulated through their character lists, JavaScript
numbers appearing in tokenizer control flow (the Math.random draws compared
with fixed thresholds) as rationals, and the embedding values as real
numbers.  Randomness (Math.random) is modelled as an explicit stream of
draws, indexed by the order in which the source consumes them.
-/

set_option maxRecDepth 4000

namespace LlmExploration

/-- Character count of a string (JavaScript String.prototype.length; all the
inputs of interest are ASCII so code-unit count and character count agree). -/
def strLen (s : String) : Nat := s.data.length

/-- Model of the JavaScript one-argument s.substring(a): the characters from
index a to the end of the string. -/
def strDrop (s : String) (n : Nat) : String := String.mk (s.data.drop n)

/-- The first n characters of a string, s.substring(0, n). -/
def strTake (s : String) (n : Nat) : String := String.mk (s.data.take n)

/-- Model of the JavaScript two-argument s.substring(a, b): the characters
with indices in [a, b).  Both uses in the source have a less than b, so the
argument-swapping behaviour of substring never fires. -/
def substringJS (s : String) (a b : Nat) : String :=
  String.mk ((s.data.take b).drop a)

/-- One step of the fold implementing String.prototype.split(sep) for a
single-character separator: a separator character opens a new (initially
empty) piece; any other character is prepended to the current first piece. -/
def splitOnCharStep (sep : Char) (c : Char) (pieces : List (List Char)) :
    List (List Char) :=
  if c = sep then [] :: pieces
  else
    match pieces with
    | [] => [[c]]
    | p :: ps => (c :: p) :: ps

/-- Model of the JavaScript word.split('-'): split at every occurrence of the
separator, keeping empty pieces (consecutive, leading or trailing separators
produce empty strings, exactly as in JavaScript). -/
def splitOnChar (sep : Char) (s : String) : List String :=
  (s.data.foldr (splitOnCharStep sep) [[]]).map (fun cs => String.mk cs)

/-- One step of the fold implementing text.split of a whitespace-run regular
expression.  The Bool component records whether the character just to the
right was whitespace, so that a maximal run of whitespace acts as a single
separator. -/
def splitWhitespaceStep (c : Char) (st : List (List Char) × Bool) :
    List (List Char) × Bool :=
  match st with
  | (pieces, prevWS) =>
    if c.isWhitespace then
      if prevWS then (pieces, true) else ([] :: pieces, true)
    else
      match pieces with
      | [] => ([[c]], false)
      | p :: ps => ((c :: p) :: ps, false)

/-- Model of the JavaScript text.split on a whitespace-run regular
expression: the text is split at maximal runs of whitespace characters, and
leading or trailing whitespace contributes an empty first or last piece
(exactly as in JavaScript, where a separator match at the boundary leaves an
empty string on its outer side). -/
def splitWhitespace (text : String) : List String :=
  (text.data.foldr splitWhitespaceStep ([[]], false)).1.map (fun cs => String.mk cs)

/-- Model of JavaScript text.indexOf(word): the least character index at
which word occurs as a contiguous substring of text, or -1 when it does not
occur.  (For every word the tokenizer looks up, the word was produced by
splitting text, so the result is never -1.) -/
def strIndexOf (text w : String) : Int :=
  match (List.range (text.data.length + 1)).find?
      (fun i => w.data.isPrefixOf (text.data.drop i)) with
  | some i => (i : Int)
  | none => -1

/-- The ordered prefix list of splitIntoGPTSubwords. -/
def gptPrefixes : List String := ["un", "re", "in", "im", "dis", "en", "em"]

/-- The ordered suffix list of splitIntoGPTSubwords. -/
def gptSuffixes : List String :=
  ["ing", "ed", "er", "est", "ly", "ful", "less", "ness"]

/-- The ordered prefix list of splitIntoBERTSubwords. -/
def bertPrefixes : List String :=
  ["un", "re", "in", "im", "dis", "en", "em", "pre", "pro", "sub", "super"]

/-- The ordered suffix list of splitIntoBERTSubwords. -/
def bertSuffixes : List String :=
  ["ing", "ed", "er", "est", "ly", "ful", "less", "ness", "ment", "tion",
   "sion", "able", "ible"]

/-- Embedding of LanguageModelExplorer.splitIntoGPTSubwords.  A word of at
most 3 characters is returned whole; a word containing a hyphen is split on
hyphens; otherwise the first listed prefix p with word.startsWith(p) and
word.length > p.length + 2 gives [p, word.substring(p.length)]; otherwise
the first listed suffix s with word.endsWith(s) and
word.length > s.length + 2 gives [word.substring(0, word.length - s.length),
s]; otherwise the word is cut at Math.ceil(word.length / 2), which for a
natural length n is (n + 1) / 2. -/
def splitIntoGPTSubwords (word : String) : List String :=
  if strLen word ≤ 3 then [word]
  else if word.data.contains '-' then splitOnChar '-' word
  else
    match gptPrefixes.find?
        (fun pfx => pfx.data.isPrefixOf word.data
          && decide (strLen word > strLen pfx + 2)) with
    | some pfx => [pfx, strDrop word (strLen pfx)]
    | none =>
      match gptSuffixes.find?
          (fun sfx => sfx.data.isSuffixOf word.data
            && decide (strLen word > strLen sfx + 2)) with
      | some sfx => [substringJS word 0 (strLen word - strLen sfx), sfx]
      | none =>
        [substringJS word 0 ((strLen word + 1) / 2),
         strDrop word ((strLen word + 1) / 2)]

/-- Embedding of LanguageModelExplorer.splitIntoBERTSubwords.  Identical to
the GPT splitter except for the longer prefix/suffix lists and one extra
fallback: a word longer than 6 characters is cut into three parts at
third = Math.ceil(word.length / 3), namely word.substring(0, third),
word.substring(third, third * 2) and word.substring(third * 2). -/
def splitIntoBERTSubwords (word : String) : List String :=
  if strLen word ≤ 3 then [word]
  else if word.data.contains '-' then splitOnChar '-' word
  else
    match bertPrefixes.find?
        (fun pfx => pfx.data.isPrefixOf word.data
          && decide (strLen word > strLen pfx + 2)) with
    | some pfx => [pfx, strDrop word (strLen pfx)]
    | none =>
      match bertSuffixes.find?
          (fun sfx => sfx.data.isSuffixOf word.data
            && decide (strLen word > strLen sfx + 2)) with
      | some sfx => [substringJS word 0 (strLen word - strLen sfx), sfx]
      | none =>
        if 6 < strLen word then
          [substringJS word 0 ((strLen word + 2) / 3),
           substringJS word ((strLen word + 2) / 3) (((strLen word + 2) / 3) * 2),
           strDrop word (((strLen word + 2) / 3) * 2)]
        else
          [substringJS word 0 ((strLen word + 1) / 2),
           strDrop word ((strLen word + 1) / 2)]

/-- The token record built by the tokenizers.  The JavaScript objects are
duck-typed; all of them carry these fields (parentWord only on subword
pieces, modelled with Option).  start and end are Int because text.indexOf
can in principle return -1. -/
structure Token where
  id : Nat
  text : String
  start : Int
  «end» : Int
  type : String
  length : Nat
  subword : Bool
  parentWord : Option String
deriving Repr, DecidableEq

instance : Inhabited Token :=
  ⟨{ id := 0, text := "", start := 0, «end» := 0, type := "", length := 0,
     subword := false, parentWord := none }⟩

/-- The single token emitted for a word the GPT tokenizer does not split. -/
def gptWordToken (text word : String) (tokenId : Nat) : Token :=
  { id := tokenId
    text := word
    start := strIndexOf text word
    «end» := strIndexOf text word + (strLen word : Int)
    type := "word"
    length := strLen word
    subword := false
    parentWord := none }

/-- The subword tokens emitted when the GPT tokenizer splits a word: piece
number index gets id tokenId + index, display text equal to the piece, and
the approximate offsets text.indexOf(word) + index * 2. -/
def gptSubTokens (text word : String) (tokenId : Nat) : List Token :=
  (splitIntoGPTSubwords word).mapIdx (fun index subword =>
    { id := tokenId + index
      text := subword
      start := strIndexOf text word + (index : Int) * 2
      «end» := strIndexOf text word + (index : Int) * 2 + (strLen subword : Int)
      type := "subword"
      length := strLen subword
      subword := true
      parentWord := some word })

/-- Processing of one whitespace-delimited word by simulateGPTTokenization.
The state is (tokens so far, next token id, next random-draw index).  Words
of length at most 2 are emitted whole; words of length at most 4 are split
exactly when the Math.random draw exceeds 0.7, consuming one draw; longer
words are always split and consume no draw. -/
def gptStep (rand : Nat → ℚ) (text : String)
    (st : List Token × Nat × Nat) (word : String) : List Token × Nat × Nat :=
  match st with
  | (tokens, tokenId, drawIdx) =>
    if strLen word ≤ 2 then
      (tokens ++ [gptWordToken text word tokenId], tokenId + 1, drawIdx)
    else if strLen word ≤ 4 then
      if rand drawIdx > 7/10 then
        (tokens ++ gptSubTokens text word tokenId,
         tokenId + (splitIntoGPTSubwords word).length, drawIdx + 1)
      else
        (tokens ++ [gptWordToken text word tokenId], tokenId + 1, drawIdx + 1)
    else
      (tokens ++ gptSubTokens text word tokenId,
       tokenId + (splitIntoGPTSubwords word).length, drawIdx)

/-- Embedding of LanguageModelExplorer.simulateGPTTokenization: split the
text on whitespace runs and process each resulting word (including any empty
strings from boundary whitespace) with gptStep, starting from an empty token
array and token id 0. -/
def simulateGPTTokenization (rand : Nat → ℚ) (text : String) : List Token :=
  ((splitWhitespace text).foldl (gptStep rand text) ([], 0, 0)).1

/-- The single token emitted for a word the BERT tokenizer does not split. -/
def bertWordToken (text word : String) (tokenId : Nat) : Token :=
  { id := tokenId
    text := word
    start := strIndexOf text word
    «end» := strIndexOf text word + (strLen word : Int)
    type := "word"
    length := strLen word
    subword := false
    parentWord := none }

/-- The subword tokens emitted when the BERT tokenizer splits a word: every
piece after the first is displayed with a leading "##" and gets a +2 length
adjustment, matching the source's index === 0 test for the text and
index > 0 test for the length. -/
def bertSubTokens (text word : String) (tokenId : Nat) : List Token :=
  (splitIntoBERTSubwords word).mapIdx (fun index subword =>
    { id := tokenId + index
      text := if index = 0 then subword else "##" ++ subword
      start := strIndexOf text word + (index : Int) * 2
      «end» := strIndexOf text word + (index : Int) * 2 + (strLen subword : Int)
      type := "subword"
      length := strLen subword + (if 0 < index then 2 else 0)
      subword := true
      parentWord := some word })

/-- Processing of one whitespace-delimited word by simulateBERTTokenization:
words of length at most 3 are emitted whole; words of length at most 5 are
split exactly when the Math.random draw exceeds 0.6, consuming one draw;
longer words are always split and consume no draw. -/
def bertStep (rand : Nat → ℚ) (text : String)
    (st : List Token × Nat × Nat) (word : String) : List Token × Nat × Nat :=
  match st with
  | (tokens, tokenId, drawIdx) =>
    if strLen word ≤ 3 then
      (tokens ++ [bertWordToken text word tokenId], tokenId + 1, drawIdx)
    else if strLen word ≤ 5 then
      if rand drawIdx > 6/10 then
        (tokens ++ bertSubTokens text word tokenId,
         tokenId + (splitIntoBERTSubwords word).length, drawIdx + 1)
      else
        (tokens ++ [bertWordToken text word tokenId], tokenId + 1, drawIdx + 1)
    else
      (tokens ++ bertSubTokens text word tokenId,
       tokenId + (splitIntoBERTSubwords word).length, drawIdx)

/-- The [CLS] special token pushed first by simulateBERTTokenization, with
token id 0, offsets 0/0 and length 5. -/
def bertCLSToken : Token :=
  { id := 0, text := "[CLS]", start := 0, «end» := 0, type := "special",
    length := 5, subword := false, parentWord := none }

/-- The [SEP] special token pushed last by simulateBERTTokenization, with
the next free token id, offsets text.length/text.length and length 5. -/
def bertSEPToken (text : String) (tokenId : Nat) : Token :=
  { id := tokenId, text := "[SEP]", start := (strLen text : Int),
    «end» := (strLen text : Int), type := "special", length := 5,
    subword := false, parentWord := none }

/-- The fold over the words of the text performed by
simulateBERTTokenization between the [CLS] and [SEP] pushes; it starts with
token id 1 because [CLS] consumed id 0. -/
def bertBodyState (rand : Nat → ℚ) (text : String) :
    List Token × Nat × Nat :=
  (splitWhitespace text).foldl (bertStep rand text) ([], 1, 0)

/-- Embedding of LanguageModelExplorer.simulateBERTTokenization: a [CLS]
token, then the word-derived tokens, then a [SEP] token carrying the next
free token id. -/
def simulateBERTTokenization (rand : Nat → ℚ) (text : String) : List Token :=
  bertCLSToken :: (bertBodyState rand text).1
    ++ [bertSEPToken text (bertBodyState rand text).2.1]

/-- The embedding dimension used throughout the pipeline (the source's
getEmbeddingDimension returns 768 for every model). -/
def embeddingDim : Nat := 768

/-- Embedding of EmbeddingsService.calculateMagnitude: the square root of
vector.reduce((sum, val) => sum + val * val, 0). -/
noncomputable def calculateMagnitude (vector : List ℝ) : ℝ :=
  Real.sqrt (vector.foldl (fun sum val => sum + val * val) 0)

/-- The record produced by generateDictionaryEmbeddings for one token. -/
structure DictEmb where
  token : String
  embedding : List ℝ
  magnitude : ℝ

/-- The record produced by generatePositionalEncoding for one position. -/
structure PosEnc where
  position : Nat
  encoding : List ℝ
  magnitude : ℝ

/-- The record produced by combineEmbeddings for one position. -/
structure CombEmb where
  position : Nat
  embedding : List ℝ
  magnitude : ℝ

instance : Inhabited PosEnc := ⟨⟨0, [], 0⟩⟩

instance : Inhabited CombEmb := ⟨⟨0, [], 0⟩⟩

/-- Embedding of generateDictionaryEmbeddings: one record per token, holding
768 fresh draws transformed by (Math.random() - 0.5) * 2.  The sequential
Math.random calls are modelled by the stream rand, consumed row-major: the
token at index ti uses draws ti * 768 + d for d < 768. -/
noncomputable def generateDictionaryEmbeddings (rand : Nat → ℝ)
    (tokens : List Token) : List DictEmb :=
  tokens.mapIdx (fun ti token =>
    let embedding := (List.range embeddingDim).map
      (fun d => (rand (ti * embeddingDim + d) - 1/2) * 2)
    { token := token.text
      embedding := embedding
      magnitude := calculateMagnitude embedding })

/-- Embedding of generatePositionalEncoding: for each position pos below
seqLength, a 768-entry vector whose entry at an even index i is
sin(pos / 10000 ^ (i / 768)) and at an odd index i is
cos(pos / 10000 ^ ((i - 1) / 768)). -/
noncomputable def generatePositionalEncoding (seqLength : Nat) : List PosEnc :=
  (List.range seqLength).map (fun (pos : Nat) =>
    let posEncoding := (List.range embeddingDim).map (fun (i : Nat) =>
      if i % 2 = 0 then
        Real.sin ((pos : ℝ) / (10000 : ℝ) ^ ((i : ℝ) / (embeddingDim : ℝ)))
      else
        Real.cos ((pos : ℝ) / (10000 : ℝ) ^ (((i : ℝ) - 1) / (embeddingDim : ℝ))))
    { position := pos
      encoding := posEncoding
      magnitude := calculateMagnitude posEncoding })

/-- Embedding of combineEmbeddings: for each position below seqLength, the
element-wise sum of the dictionary vector and the positional vector at that
position, each defaulting to a 768-entry zero vector when the list has no
entry there (the source's ?. plus || fallback).  The source computes the sum
as dictEmbedding.map((val, i) => val + posEncoding[i]); the out-of-range
access posEncoding[i] is modelled with default 0, which is never reached
when both vectors have 768 entries. -/
noncomputable def combineEmbeddings (seqLength : Nat) (dictionaryEmbeddings : List DictEmb)
    (positionalEncoding : List PosEnc) : List CombEmb :=
  (List.range seqLength).map (fun pos =>
    let dictEmbedding := ((dictionaryEmbeddings.get? pos).map
      (fun e => e.embedding)).getD (List.replicate embeddingDim 0)
    let posEncoding := ((positionalEncoding.get? pos).map
      (fun e => e.encoding)).getD (List.replicate embeddingDim 0)
    let combinedEmbedding := dictEmbedding.mapIdx
      (fun i val => val + posEncoding.getD i 0)
    { position := pos
      embedding := combinedEmbedding
      magnitude := calculateMagnitude combinedEmbedding })

/-- The EmbeddingsData record assembled by generateEmbeddings. -/
structure EmbeddingsData where
  tokens : List Token
  dictionaryEmbeddings : List DictEmb
  positionalEncoding : List PosEnc
  finalEmbeddings : List CombEmb

/-- The slice of LanguageModelExplorer state that the embeddings pipeline
reads and writes: the current model identifier, the tokenizer registry
(this.tokenizers, a partial map from model id to a tokenize function), and
the current EmbeddingsData if one has been produced. -/
structure ExplorerState where
  currentModel : String
  tokenizers : String → Option (String → List Token)
  embeddingsData : Option EmbeddingsData

/-- Embedding of LanguageModelExplorer.generateEmbeddings: when no tokenizer
is registered for the current model the method logs and returns early,
leaving this.embeddingsData untouched; otherwise it tokenizes, builds the
three vector sequences and stores the EmbeddingsData. -/
noncomputable def generateEmbeddings (randEmb : Nat → ℝ) (st : ExplorerState)
    (text : String) : ExplorerState :=
  match st.tokenizers st.currentModel with
  | none => st
  | some tokenize =>
    let tokens := tokenize text
    let dictionaryEmbeddings := generateDictionaryEmbeddings randEmb tokens
    let positionalEncoding := generatePositionalEncoding tokens.length
    let finalEmbeddings :=
      combineEmbeddings tokens.length dictionaryEmbeddings positionalEncoding
    let data : EmbeddingsData :=
      ⟨tokens, dictionaryEmbeddings, positionalEncoding, finalEmbeddings⟩
    { st with embeddingsData := some data }

/-- The source's blank-input guard !inputText || !inputText.trim(): true
exactly when the text is empty or all whitespace. -/
def isBlank (text : String) : Bool := text.data.all Char.isWhitespace

/-- Embedding of the data and error flow of
LanguageModelExplorer.exploreEmbeddings (DOM updates and the artificial
delay elided): blank input is silently ignored; otherwise
generateEmbeddings runs, and if afterwards no EmbeddingsData exists the
catch block surfaces the user-visible failure message built from the thrown
error; no retry happens.  The returned pair is the updated state and the
surfaced error message, if any. -/
noncomputable def exploreEmbeddings (randEmb : Nat → ℝ) (st : ExplorerState)
    (text : String) : ExplorerState × Option String :=
  if isBlank text then (st, none)
  else
    let st2 := generateEmbeddings randEmb st text
    match st2.embeddingsData with
    | none =>
      (st2, some "Failed to generate embeddings: Failed to generate embeddings data")
    | some _ => (st2, none)

/-- The value at dimension d of the dictionary embedding at position p,
with a missing entry read as the 768-entry zero vector (the fallback the
spec prescribes for combineEmbeddings). -/
noncomputable def dictValueAt (dictionaryEmbeddings : List DictEmb) (p d : Nat) : ℝ :=
  (((dictionaryEmbeddings.get? p).map (fun e => e.embedding)).getD
    (List.replicate embeddingDim 0)).getD d 0

/-- The value at dimension d of the positional encoding at position p, with
a missing entry read as the 768-entry zero vector. -/
noncomputable def posValueAt (positionalEncoding : List PosEnc) (p d : Nat) : ℝ :=
  (((positionalEncoding.get? p).map (fun e => e.encoding)).getD
    (List.replicate embeddingDim 0)).getD d 0

/-- The value at dimension d of the combined embedding at position p. -/
noncomputable def combValueAt (seqLength : Nat) (dictionaryEmbeddings : List DictEmb)
    (positionalEncoding : List PosEnc) (p d : Nat) : ℝ :=
  (((combineEmbeddings seqLength dictionaryEmbeddings positionalEncoding).get? p).map
    (fun c => c.embedding.getD d 0)).getD 0

/-- The value at dimension i of the positional encoding of position pos, as
produced by generatePositionalEncoding seqLength. -/
noncomputable def peValueAt (seqLength pos i : Nat) : ℝ :=
  (((generatePositionalEncoding seqLength).get? pos).map
    (fun e => e.encoding.getD i 0)).getD 0

/-- Modelled from the spec wording of the splitting algorithm, for
comparison with the source's splitIntoGPTSubwords: prefix and suffix guards
are phrased as length bounds on the remainder and the stem, and the pieces
as take/drop at the stated cut points. -/
def splitSubwordsSpecGPT (word : String) : List String :=
  if strLen word ≤ 3 then [word]
  else if word.data.contains '-' then splitOnChar '-' word
  else
    match gptPrefixes.find?
        (fun pfx => pfx.data.isPrefixOf word.data
          && decide (2 < strLen (strDrop word (strLen pfx)))) with
    | some pfx => [pfx, strDrop word (strLen pfx)]
    | none =>
      match gptSuffixes.find?
          (fun sfx => sfx.data.isSuffixOf word.data
            && decide (2 < strLen (strTake word (strLen word - strLen sfx)))) with
      | some sfx => [strTake word (strLen word - strLen sfx), sfx]
      | none =>
        [strTake word ((strLen word + 1) / 2),
         strDrop word ((strLen word + 1) / 2)]

/-- Modelled from the spec wording of the BERT splitting algorithm, for
comparison with the source's splitIntoBERTSubwords: as the GPT version, with
the longer lists and the three-way split of words longer than 6, whose first
two pieces each take ceil(length / 3) characters and whose last piece takes
the remainder. -/
def splitSubwordsSpecBERT (word : String) : List String :=
  if strLen word ≤ 3 then [word]
  else if word.data.contains '-' then splitOnChar '-' word
  else
    match bertPrefixes.find?
        (fun pfx => pfx.data.isPrefixOf word.data
          && decide (2 < strLen (strDrop word (strLen pfx)))) with
    | some pfx => [pfx, strDrop word (strLen pfx)]
    | none =>
      match bertSuffixes.find?
          (fun sfx => sfx.data.isSuffixOf word.data
            && decide (2 < strLen (strTake word (strLen word - strLen sfx)))) with
      | some sfx => [strTake word (strLen word - strLen sfx), sfx]
      | none =>
        if 6 < strLen word then
          [strTake word ((strLen word + 2) / 3),
           strTake (strDrop word ((strLen word + 2) / 3)) ((strLen word + 2) / 3),
           strDrop word (((strLen word + 2) / 3) * 2)]
        else
          [strTake word ((strLen word + 1) / 2),
           strDrop word ((strLen word + 1) / 2)]

lemma strLen_strDrop (s : String) (n : Nat) :
    strLen (strDrop s n) = strLen s - n := by
  simp [strLen, strDrop]

lemma strLen_strTake (s : String) (n : Nat) :
    strLen (strTake s n) = min n (strLen s) := by
  simp [strLen, strTake]

lemma substringJS_zero (s : String) (b : Nat) :
    substringJS s 0 b = strTake s b := by
  simp [substringJS, strTake]

lemma substringJS_double (s : String) (t : Nat) :
    substringJS s t (t * 2) = strTake (strDrop s t) t := by
  simp only [substringJS, strTake, strDrop, List.drop_take]
  have h : t * 2 - t = t := by omega
  rw [h]

lemma prefixPred_eq (word pfx : String) :
    (pfx.data.isPrefixOf word.data && decide (strLen word > strLen pfx + 2))
      = (pfx.data.isPrefixOf word.data
          && decide (2 < strLen (strDrop word (strLen pfx)))) := by
  have h : (strLen word > strLen pfx + 2)
      ↔ (2 < strLen (strDrop word (strLen pfx))) := by
    rw [strLen_strDrop]
    omega
  rw [decide_eq_decide.mpr h]

lemma suffixPred_eq (word sfx : String) :
    (sfx.data.isSuffixOf word.data && decide (strLen word > strLen sfx + 2))
      = (sfx.data.isSuffixOf word.data
          && decide (2 < strLen (strTake word (strLen word - strLen sfx)))) := by
  have h : (strLen word > strLen sfx + 2)
      ↔ (2 < strLen (strTake word (strLen word - strLen sfx))) := by
    rw [strLen_strTake]
    omega
  rw [decide_eq_decide.mpr h]

lemma splitIntoGPTSubwords_eq_spec (word : String) :
    splitIntoGPTSubwords word = splitSubwordsSpecGPT word := by
  unfold splitIntoGPTSubwords splitSubwordsSpecGPT
  simp only [funext (prefixPred_eq word), funext (suffixPred_eq word),
    substringJS_zero]

lemma splitIntoBERTSubwords_eq_spec (word : String) :
    splitIntoBERTSubwords word = splitSubwordsSpecBERT word := by
  unfold splitIntoBERTSubwords splitSubwordsSpecBERT
  simp only [funext (prefixPred_eq word), funext (suffixPred_eq word),
    substringJS_zero, substringJS_double]

lemma getD_mapIdx_of_lt {α β : Type} (l : List α) (f : Nat → α → β)
    (d : Nat) (a : α) (b : β) (h : d < l.length) :
    (l.mapIdx f).getD d b = f d (l.getD d a) := by
  rw [List.getD_eq_getD_get?, List.getD_eq_getD_get?, List.get?_eq_getElem?,
    List.get?_eq_getElem?, List.getElem?_mapIdx]
  rw [List.getElem?_eq_getElem h]
  simp

/-- C4: splitSubwords follows the ordered algorithm the claim states: words
of length at most 3 unsplit; hyphen words split on hyphens; else the first
listed prefix with remainder longer than 2; else the first listed suffix
with stem longer than 2; else (BERT only) the three-way split of words
longer than 6 with the first two pieces of ceil(length/3) characters; else
the binary split at ceil(length/2); and splitIntoGPTSubwords of the word
hello is the pair hel, lo. -/
theorem c4_splitSubwords_algorithm :
    (∀ word, splitIntoGPTSubwords word = splitSubwordsSpecGPT word)
    ∧ (∀ word, splitIntoBERTSubwords word = splitSubwordsSpecBERT word)
    ∧ splitIntoGPTSubwords "hello" = ["hel", "lo"] :=
  ⟨splitIntoGPTSubwords_eq_spec, splitIntoBERTSubwords_eq_spec, by decide⟩

/-- C1: combineEmbeddings n dict positional returns exactly n vectors, and
whenever every present dictionary and positional vector has 768 entries,
the combined value at position p and dimension d is the sum of the
dictionary and positional values there, a missing entry at p being read as
the all-zero 768-entry vector. -/
theorem c1_combineEmbeddings_sum_law (n : Nat) (dictionaryEmbeddings : List DictEmb)
    (positionalEncoding : List PosEnc)
    (hd : ∀ e ∈ dictionaryEmbeddings, e.embedding.length = embeddingDim)
    (hp : ∀ e ∈ positionalEncoding, e.encoding.length = embeddingDim) :
    (combineEmbeddings n dictionaryEmbeddings positionalEncoding).length = n
    ∧ ∀ p, p < n → ∀ d, d < embeddingDim →
        combValueAt n dictionaryEmbeddings positionalEncoding p d
          = dictValueAt dictionaryEmbeddings p d
              + posValueAt positionalEncoding p d := by
  constructor
  · simp [combineEmbeddings]
  · intro p hpn d hdim
    have hget : (combineEmbeddings n dictionaryEmbeddings positionalEncoding).get? p
        = some ((fun pos =>
            let dictEmbedding := ((dictionaryEmbeddings.get? pos).map
              (fun e => e.embedding)).getD (List.replicate embeddingDim 0)
            let posEncoding := ((positionalEncoding.get? pos).map
              (fun e => e.encoding)).getD (List.replicate embeddingDim 0)
            let combinedEmbedding := dictEmbedding.mapIdx
              (fun i val => val + posEncoding.getD i 0)
            ({ position := pos, embedding := combinedEmbedding,
               magnitude := calculateMagnitude combinedEmbedding } : CombEmb)) p) := by
      unfold combineEmbeddings
      rw [List.get?_map, List.get?_range hpn]
      rfl
    set dictEmbedding := ((dictionaryEmbeddings.get? p).map
      (fun e => e.embedding)).getD (List.replicate embeddingDim 0) with hdicte
    set posEncoding := ((positionalEncoding.get? p).map
      (fun e => e.encoding)).getD (List.replicate embeddingDim 0) with hpose
    have hdlen : dictEmbedding.length = embeddingDim := by
      rw [hdicte]
      cases hcase : dictionaryEmbeddings.get? p with
      | none => simp
      | some e => simp [hd e (List.get?_mem hcase)]
    have hcomb : combValueAt n dictionaryEmbeddings positionalEncoding p d
        = (dictEmbedding.mapIdx (fun i val => val + posEncoding.getD i 0)).getD d 0 := by
      unfold combValueAt
      rw [hget]
      rfl
    rw [hcomb, getD_mapIdx_of_lt dictEmbedding _ d 0 0 (by rw [hdlen]; exact hdim)]
    rfl

/-- Witness for C1 at n = 2 with both input sequences empty. -/
theorem c1_combineEmbeddings_sum_law_witness :
    (combineEmbeddings 2 [] []).length = 2
    ∧ combValueAt 2 [] [] 1 5 = dictValueAt [] 1 5 + posValueAt [] 1 5 := by
  have h := c1_combineEmbeddings_sum_law 2 [] [] (by simp) (by simp)
  exact ⟨h.1, h.2 1 (by norm_num) 5 (by norm_num [embeddingDim])⟩

lemma generatePositionalEncoding_get? (n pos : Nat) (h : pos < n) :
    (generatePositionalEncoding n).get? pos
      = some ((fun (p : Nat) =>
          let posEncoding := (List.range embeddingDim).map (fun (i : Nat) =>
            if i % 2 = 0 then
              Real.sin ((p : ℝ) / (10000 : ℝ) ^ ((i : ℝ) / (embeddingDim : ℝ)))
            else
              Real.cos ((p : ℝ) / (10000 : ℝ) ^ (((i : ℝ) - 1) / (embeddingDim : ℝ))))
          ({ position := p, encoding := posEncoding,
             magnitude := calculateMagnitude posEncoding } : PosEnc)) pos) := by
  unfold generatePositionalEncoding
  rw [List.get?_map, List.get?_range h]
  rfl

lemma peValueAt_eq (n pos i : Nat) (hpos : pos < n) (hi : i < embeddingDim) :
    peValueAt n pos i
      = if i % 2 = 0 then
          Real.sin ((pos : ℝ) / (10000 : ℝ) ^ ((i : ℝ) / (embeddingDim : ℝ)))
        else
          Real.cos ((pos : ℝ) / (10000 : ℝ) ^ (((i : ℝ) - 1) / (embeddingDim : ℝ))) := by
  unfold peValueAt
  rw [generatePositionalEncoding_get? n pos hpos]
  simp only [Option.map_some', Option.getD_some]
  rw [List.getD_eq_getD_get?, List.get?_map, List.get?_range hi]
  rfl

/-- C2: generatePositionalEncoding is deterministic and pure, its value at
position pos and dimension i is the stated sine or cosine, it is
prefix-stable in the sequence length, and position 0 has value 0 at
dimension 0 and value 1 at dimension 1 exactly. -/
theorem c2_generatePositionalEncoding_formula :
    (∀ n pos i, pos < n → i < 768 →
      peValueAt n pos i
        = if i % 2 = 0 then
            Real.sin ((pos : ℝ) / (10000 : ℝ) ^ ((i : ℝ) / (768 : ℝ)))
          else
            Real.cos ((pos : ℝ) / (10000 : ℝ) ^ (((i : ℝ) - 1) / (768 : ℝ))))
    ∧ (∀ n, generatePositionalEncoding n = generatePositionalEncoding n)
    ∧ (∀ m n, m ≤ n → ∀ pos, pos < m →
        (generatePositionalEncoding m).get? pos
          = (generatePositionalEncoding n).get? pos)
    ∧ (∀ n, 0 < n → peValueAt n 0 0 = 0 ∧ peValueAt n 0 1 = 1) := by
  refine ⟨?_, fun n => rfl, ?_, ?_⟩
  · intro n pos i hpos hi
    exact peValueAt_eq n pos i hpos hi
  · intro m n hmn pos hpm
    rw [generatePositionalEncoding_get? m pos hpm,
      generatePositionalEncoding_get? n pos (lt_of_lt_of_le hpm hmn)]
  · intro n hn
    constructor
    · rw [peValueAt_eq n 0 0 hn (by norm_num [embeddingDim])]
      simp
    · rw [peValueAt_eq n 0 1 hn (by norm_num [embeddingDim])]
      simp

/-- Witness for C2 at sequence length 1: the position-0 values at
dimensions 0 and 1 are exactly 0 and 1. -/
theorem c2_generatePositionalEncoding_formula_witness :
    peValueAt 1 0 0 = 0 ∧ peValueAt 1 0 1 = 1 :=
  c2_generatePositionalEncoding_formula.2.2.2 1 (by norm_num)

lemma foldl_add_map (f : ℝ → ℝ) :
    ∀ (l : List ℝ) (a : ℝ), l.foldl (fun sum val => sum + f val) a
      = a + (l.map f).sum
  | [], a => by simp
  | x :: xs, a => by
    simp only [List.foldl_cons, List.map_cons, List.sum_cons]
    rw [foldl_add_map f xs (a + f x)]
    ring

lemma calculateMagnitude_eq_sqrt_sum (l : List ℝ) :
    calculateMagnitude l = Real.sqrt ((l.map (fun v => v * v)).sum) := by
  unfold calculateMagnitude
  rw [foldl_add_map (fun v => v * v) l 0, zero_add]

lemma headI_mem_of_ne_nil {α : Type} [Inhabited α] {l : List α} (h : l ≠ []) :
    l.headI ∈ l := by
  cases l with
  | nil => exact absurd rfl h
  | cons a as => exact List.mem_cons_self a as

/-- C9: every vector produced by generateDictionaryEmbeddings,
generatePositionalEncoding and combineEmbeddings carries a magnitude equal
to the Euclidean norm of its values, within 1e-9 (in the model the two are
exactly equal, so the difference is 0). -/
theorem c9_magnitude_euclidean :
    (∀ (rand : Nat → ℝ) (tokens : List Token),
      ∀ v ∈ generateDictionaryEmbeddings rand tokens,
        |v.magnitude - Real.sqrt ((v.embedding.map (fun x => x * x)).sum)|
          < 1/1000000000)
    ∧ (∀ n, ∀ v ∈ generatePositionalEncoding n,
        |v.magnitude - Real.sqrt ((v.encoding.map (fun x => x * x)).sum)|
          < 1/1000000000)
    ∧ (∀ n dictionaryEmbeddings positionalEncoding,
        ∀ v ∈ combineEmbeddings n dictionaryEmbeddings positionalEncoding,
          |v.magnitude - Real.sqrt ((v.embedding.map (fun x => x * x)).sum)|
            < 1/1000000000) := by
  refine ⟨?_, ?_, ?_⟩
  · intro rand tokens v hv
    unfold generateDictionaryEmbeddings at hv
    rw [List.mem_mapIdx] at hv
    obtain ⟨i, hi, hveq⟩ := hv
    rw [← hveq]
    simp only [calculateMagnitude_eq_sqrt_sum, sub_self, abs_zero]
    norm_num
  · intro n v hv
    unfold generatePositionalEncoding at hv
    rw [List.mem_map] at hv
    obtain ⟨pos, _, hveq⟩ := hv
    rw [← hveq]
    simp only [calculateMagnitude_eq_sqrt_sum, sub_self, abs_zero]
    norm_num
  · intro n dictionaryEmbeddings positionalEncoding v hv
    unfold combineEmbeddings at hv
    rw [List.mem_map] at hv
    obtain ⟨pos, _, hveq⟩ := hv
    rw [← hveq]
    simp only [calculateMagnitude_eq_sqrt_sum, sub_self, abs_zero]
    norm_num

/-- Witness for C9: the single vector of combineEmbeddings 1 on two empty
input sequences satisfies the magnitude law. -/
theorem c9_magnitude_euclidean_witness :
    |((combineEmbeddings 1 [] []).headI).magnitude
      - Real.sqrt ((((combineEmbeddings 1 [] []).headI).embedding.map
          (fun x => x * x)).sum)| < 1/1000000000 := by
  have hne : combineEmbeddings 1 [] [] ≠ [] := by
    have hlen : (combineEmbeddings 1 [] []).length = 1 := by
      simp [combineEmbeddings]
    intro hnil
    rw [hnil] at hlen
    simp at hlen
  exact c9_magnitude_euclidean.2.2 1 [] [] _ (headI_mem_of_ne_nil hne)

/-- C8 counterexample: an explorer state whose tokenizer registry has no
entry for the current model but which still holds an EmbeddingsData from an
earlier successful run.  generateEmbeddings is skipped, yet
exploreEmbeddings surfaces no error, because the stale data defeats the
only failure check; the claim's unconditional error surfacing is false. -/
theorem c8_missing_tokenizer_counterexample :
    (exploreEmbeddings (fun _ => 0)
        ⟨"gpt2", fun _ => none, some ⟨[], [], [], []⟩⟩ "hello").2 = none
    ∧ (⟨"gpt2", fun _ => none,
        some ⟨[], [], [], []⟩⟩ : ExplorerState).tokenizers "gpt2" = none
    ∧ isBlank "hello" = false := by
  refine ⟨rfl, rfl, by decide⟩

/-- C8 amended: if no tokenizer is registered for the current model and no
EmbeddingsData exists from a prior run, exploreEmbeddings on non-blank
input leaves the state unchanged (generation is skipped, no data produced)
and surfaces the user-visible failure message; a stale EmbeddingsData from
an earlier run instead masks the failure silently.  The call itself is
single-shot: the result is returned once with no retry. -/
theorem c8_missing_tokenizer_amended (randEmb : Nat → ℝ) (st : ExplorerState)
    (text : String) (htok : st.tokenizers st.currentModel = none)
    (hdata : st.embeddingsData = none) (htext : isBlank text = false) :
    exploreEmbeddings randEmb st text
      = (st, some "Failed to generate embeddings: Failed to generate embeddings data") := by
  unfold exploreEmbeddings
  rw [htext]
  simp only [Bool.false_eq_true, if_false]
  have hgen : generateEmbeddings randEmb st text = st := by
    unfold generateEmbeddings
    rw [htok]
  rw [hgen, hdata]

/-- Witness for C8 amended: a fresh state with an empty registry and no
prior data surfaces the failure message on input hello. -/
theorem c8_missing_tokenizer_amended_witness :
    exploreEmbeddings (fun _ => 0) ⟨"gpt2", fun _ => none, none⟩ "hello"
      = (⟨"gpt2", fun _ => none, none⟩,
         some "Failed to generate embeddings: Failed to generate embeddings data") :=
  c8_missing_tokenizer_amended (fun _ => 0) ⟨"gpt2", fun _ => none, none⟩
    "hello" rfl rfl (by decide)

lemma splitOnCharStep_eq (sep c : Char) (pieces : List (List Char)) :
    splitOnCharStep sep c pieces
      = if c = sep then [] :: pieces
        else
          match pieces with
          | [] => [[c]]
          | p :: ps => (c :: p) :: ps := rfl

lemma splitOnCharStep_ne_nil (sep c : Char) (pieces : List (List Char)) :
    splitOnCharStep sep c pieces ≠ [] := by
  rw [splitOnCharStep_eq]
  by_cases hc : c = sep
  · simp [hc]
  · rw [if_neg hc]
    cases pieces <;> simp

lemma foldr_splitOnCharStep_ne_nil (sep : Char) (l : List Char) :
    l.foldr (splitOnCharStep sep) [[]] ≠ [] := by
  cases l with
  | nil => simp
  | cons c cs => exact splitOnCharStep_ne_nil sep c _

lemma splitOnChar_ne_nil (sep : Char) (s : String) :
    splitOnChar sep s ≠ [] := by
  unfold splitOnChar
  simp [foldr_splitOnCharStep_ne_nil sep s.data]

lemma foldr_splitOnCharStep_length (sep : Char) :
    ∀ l : List Char, (l.foldr (splitOnCharStep sep) [[]]).length
      = l.count sep + 1
  | [] => by simp
  | c :: cs => by
    rw [List.foldr_cons, splitOnCharStep_eq]
    have hlen := foldr_splitOnCharStep_length sep cs
    by_cases hc : c = sep
    · rw [if_pos hc]
      simp only [List.length_cons, hlen, List.count_cons]
      simp [hc]
    · rw [if_neg hc]
      cases hfold : cs.foldr (splitOnCharStep sep) [[]] with
      | nil => exact absurd hfold (foldr_splitOnCharStep_ne_nil sep cs)
      | cons p ps =>
        rw [hfold] at hlen
        simp only [List.length_cons] at hlen ⊢
        simp only [List.count_cons, hlen]
        simp [hc]

lemma splitOnChar_length (sep : Char) (s : String) :
    (splitOnChar sep s).length = s.data.count sep + 1 := by
  unfold splitOnChar
  rw [List.length_map, foldr_splitOnCharStep_length sep s.data]

lemma gptPrefixes_ne_zero : ∀ p ∈ gptPrefixes, strLen p ≠ 0 := by decide

lemma gptSuffixes_ne_zero : ∀ s ∈ gptSuffixes, strLen s ≠ 0 := by decide

lemma bertPrefixes_ne_zero : ∀ p ∈ bertPrefixes, strLen p ≠ 0 := by decide

lemma bertSuffixes_ne_zero : ∀ s ∈ bertSuffixes, strLen s ≠ 0 := by decide

lemma find?_prefix_facts (l : List String) (word pfx : String)
    (h : l.find? (fun q => q.data.isPrefixOf word.data
      && decide (strLen word > strLen q + 2)) = some pfx) :
    pfx ∈ l ∧ strLen word > strLen pfx + 2 := by
  refine ⟨List.mem_of_find?_eq_some h, ?_⟩
  have hp := List.find?_some h
  rw [Bool.and_eq_true, decide_eq_true_eq] at hp
  exact hp.2

lemma find?_suffix_facts (l : List String) (word sfx : String)
    (h : l.find? (fun q => q.data.isSuffixOf word.data
      && decide (strLen word > strLen q + 2)) = some sfx) :
    sfx ∈ l ∧ strLen word > strLen sfx + 2 := by
  refine ⟨List.mem_of_find?_eq_some h, ?_⟩
  have hp := List.find?_some h
  rw [Bool.and_eq_true, decide_eq_true_eq] at hp
  exact hp.2

lemma strLen_substringJS (s : String) (a b : Nat) :
    strLen (substringJS s a b) = min b (strLen s) - a := by
  simp [substringJS, strLen]

lemma mem_pair_iff {α : Type} {p a b : α} (h : p ∈ [a, b]) : p = a ∨ p = b := by
  simpa using h

lemma mem_triple_iff {α : Type} {p a b c : α} (h : p ∈ [a, b, c]) :
    p = a ∨ p = b ∨ p = c := by
  simpa using h

lemma splitIntoGPTSubwords_ne_nil (word : String) :
    splitIntoGPTSubwords word ≠ [] := by
  unfold splitIntoGPTSubwords
  by_cases h3 : strLen word ≤ 3
  · simp [h3]
  · rw [if_neg h3]
    by_cases hh : word.data.contains '-' = true
    · rw [if_pos hh]
      exact splitOnChar_ne_nil '-' word
    · rw [if_neg hh]
      cases gptPrefixes.find? _ with
      | some pfx => simp
      | none =>
        cases gptSuffixes.find? _ with
        | some sfx => simp
        | none => simp

lemma splitIntoBERTSubwords_ne_nil (word : String) :
    splitIntoBERTSubwords word ≠ [] := by
  unfold splitIntoBERTSubwords
  by_cases h3 : strLen word ≤ 3
  · simp [h3]
  · rw [if_neg h3]
    by_cases hh : word.data.contains '-' = true
    · rw [if_pos hh]
      exact splitOnChar_ne_nil '-' word
    · rw [if_neg hh]
      cases bertPrefixes.find? _ with
      | some pfx => simp
      | none =>
        cases bertSuffixes.find? _ with
        | some sfx => simp
        | none =>
          by_cases h6 : 6 < strLen word <;> simp [h6]

lemma splitIntoGPTSubwords_nonhyphen (word : String) (hne : word.data ≠ [])
    (hh : word.data.contains '-' = false) :
    ((splitIntoGPTSubwords word).map (fun p => strLen p)).sum = strLen word
    ∧ ∀ p ∈ splitIntoGPTSubwords word, strLen p ≠ 0 := by
  have hwlen : strLen word ≠ 0 := fun h0 => hne (List.length_eq_zero.mp h0)
  have hh2 : ¬ word.data.contains '-' = true := by
    rw [hh]
    exact Bool.false_ne_true
  unfold splitIntoGPTSubwords
  by_cases h3 : strLen word ≤ 3
  · simp [h3, hwlen]
  · rw [if_neg h3, if_neg hh2]
    cases hpf : gptPrefixes.find? (fun q => q.data.isPrefixOf word.data
        && decide (strLen word > strLen q + 2)) with
    | some pfx =>
      obtain ⟨hmem, hlen⟩ := find?_prefix_facts _ word pfx hpf
      constructor
      · simp only [List.map_cons, List.map_nil, List.sum_cons, List.sum_nil,
          strLen_strDrop]
        omega
      · intro p hp
        rcases mem_pair_iff hp with rfl | rfl
        · exact gptPrefixes_ne_zero p hmem
        · rw [strLen_strDrop]; omega
    | none =>
      cases hsf : gptSuffixes.find? (fun q => q.data.isSuffixOf word.data
          && decide (strLen word > strLen q + 2)) with
      | some sfx =>
        obtain ⟨hmem, hlen⟩ := find?_suffix_facts _ word sfx hsf
        constructor
        · simp only [List.map_cons, List.map_nil, List.sum_cons, List.sum_nil,
            strLen_substringJS]
          omega
        · intro p hp
          rcases mem_pair_iff hp with rfl | rfl
          · rw [strLen_substringJS]; omega
          · exact gptSuffixes_ne_zero p hmem
      | none =>
        constructor
        · simp only [List.map_cons, List.map_nil, List.sum_cons, List.sum_nil,
            strLen_substringJS, strLen_strDrop]
          omega
        · intro p hp
          rcases mem_pair_iff hp with rfl | rfl
          · rw [strLen_substringJS]; omega
          · rw [strLen_strDrop]; omega

lemma splitIntoBERTSubwords_nonhyphen (word : String) (hne : word.data ≠ [])
    (hh : word.data.contains '-' = false) :
    ((splitIntoBERTSubwords word).map (fun p => strLen p)).sum = strLen word
    ∧ ∀ p ∈ splitIntoBERTSubwords word, strLen p ≠ 0 := by
  have hwlen : strLen word ≠ 0 := fun h0 => hne (List.length_eq_zero.mp h0)
  have hh2 : ¬ word.data.contains '-' = true := by
    rw [hh]
    exact Bool.false_ne_true
  unfold splitIntoBERTSubwords
  by_cases h3 : strLen word ≤ 3
  · simp [h3, hwlen]
  · rw [if_neg h3, if_neg hh2]
    cases hpf : bertPrefixes.find? (fun q => q.data.isPrefixOf word.data
        && decide (strLen word > strLen q + 2)) with
    | some pfx =>
      obtain ⟨hmem, hlen⟩ := find?_prefix_facts _ word pfx hpf
      constructor
      · simp only [List.map_cons, List.map_nil, List.sum_cons, List.sum_nil,
          strLen_strDrop]
        omega
      · intro p hp
        rcases mem_pair_iff hp with rfl | rfl
        · exact bertPrefixes_ne_zero p hmem
        · rw [strLen_strDrop]; omega
    | none =>
      cases hsf : bertSuffixes.find? (fun q => q.data.isSuffixOf word.data
          && decide (strLen word > strLen q + 2)) with
      | some sfx =>
        obtain ⟨hmem, hlen⟩ := find?_suffix_facts _ word sfx hsf
        constructor
        · simp only [List.map_cons, List.map_nil, List.sum_cons, List.sum_nil,
            strLen_substringJS]
          omega
        · intro p hp
          rcases mem_pair_iff hp with rfl | rfl
          · rw [strLen_substringJS]; omega
          · exact bertSuffixes_ne_zero p hmem
      | none =>
        by_cases h6 : 6 < strLen word
        · rw [if_pos h6]
          constructor
          · simp only [List.map_cons, List.map_nil, List.sum_cons, List.sum_nil,
              strLen_substringJS, strLen_strDrop]
            omega
          · intro p hp
            rcases mem_triple_iff hp with rfl | rfl | rfl
            · rw [strLen_substringJS]; omega
            · rw [strLen_substringJS]; omega
            · rw [strLen_strDrop]; omega
        · rw [if_neg h6]
          constructor
          · simp only [List.map_cons, List.map_nil, List.sum_cons, List.sum_nil,
              strLen_substringJS, strLen_strDrop]
            omega
          · intro p hp
            rcases mem_pair_iff hp with rfl | rfl
            · rw [strLen_substringJS]; omega
            · rw [strLen_strDrop]; omega

/-- C5 counterexample: the hyphenated word ab--cd (length 6) is split on
hyphens into ab, an empty piece, and cd: a piece of length 0 is returned,
and the total piece length 4 differs from the word length 6, refuting both
the no-zero-length-piece and the length-conservation parts of the claim. -/
theorem c5_splitSubwords_safety_counterexample :
    splitIntoGPTSubwords "ab--cd" = ["ab", "", "cd"]
    ∧ "" ∈ splitIntoGPTSubwords "ab--cd"
    ∧ ((splitIntoGPTSubwords "ab--cd").map (fun p => strLen p)).sum = 4
    ∧ strLen "ab--cd" = 6 := by
  refine ⟨by decide, by decide, by decide, by decide⟩

/-- C5 amended: both splitters always return a non-empty list; for every
non-empty word containing no hyphen, no returned piece has length 0 and
the total length of the pieces equals the word length.  (For hyphenated
words the hyphen characters are dropped, and consecutive, leading or
trailing hyphens yield empty pieces, so both properties fail there; the
empty word is returned as the single empty piece.) -/
theorem c5_splitSubwords_safety_amended (word : String) :
    splitIntoGPTSubwords word ≠ []
    ∧ splitIntoBERTSubwords word ≠ []
    ∧ (word.data ≠ [] → word.data.contains '-' = false →
        (((splitIntoGPTSubwords word).map (fun p => strLen p)).sum = strLen word
          ∧ ∀ p ∈ splitIntoGPTSubwords word, strLen p ≠ 0)
        ∧ (((splitIntoBERTSubwords word).map (fun p => strLen p)).sum = strLen word
          ∧ ∀ p ∈ splitIntoBERTSubwords word, strLen p ≠ 0)) :=
  ⟨splitIntoGPTSubwords_ne_nil word, splitIntoBERTSubwords_ne_nil word,
    fun hne hh => ⟨splitIntoGPTSubwords_nonhyphen word hne hh,
      splitIntoBERTSubwords_nonhyphen word hne hh⟩⟩

/-- Witness for C5 amended at the hyphen-free word hello. -/
theorem c5_splitSubwords_safety_amended_witness :
    ((splitIntoGPTSubwords "hello").map (fun p => strLen p)).sum = strLen "hello"
    ∧ splitIntoGPTSubwords "hello" ≠ [] :=
  ⟨((c5_splitSubwords_safety_amended "hello").2.2 (by decide) (by decide)).1.1,
    (c5_splitSubwords_safety_amended "hello").1⟩

lemma gptStep_short (rand : Nat → ℚ) (text : String) (acc : List Token)
    (id d : Nat) (w : String) (h : strLen w ≤ 2) :
    gptStep rand text (acc, id, d) w
      = (acc ++ [gptWordToken text w id], id + 1, d) := by
  unfold gptStep
  dsimp only
  rw [if_pos h]

lemma gptStep_medium_nosplit (rand : Nat → ℚ) (text : String) (acc : List Token)
    (id d : Nat) (w : String) (h2 : ¬ strLen w ≤ 2) (h4 : strLen w ≤ 4)
    (hr : ¬ rand d > 7/10) :
    gptStep rand text (acc, id, d) w
      = (acc ++ [gptWordToken text w id], id + 1, d + 1) := by
  unfold gptStep
  dsimp only
  rw [if_neg h2, if_pos h4, if_neg hr]

lemma gptStep_medium_split (rand : Nat → ℚ) (text : String) (acc : List Token)
    (id d : Nat) (w : String) (h2 : ¬ strLen w ≤ 2) (h4 : strLen w ≤ 4)
    (hr : rand d > 7/10) :
    gptStep rand text (acc, id, d) w
      = (acc ++ gptSubTokens text w id,
         id + (splitIntoGPTSubwords w).length, d + 1) := by
  unfold gptStep
  dsimp only
  rw [if_neg h2, if_pos h4, if_pos hr]

lemma gptStep_long (rand : Nat → ℚ) (text : String) (acc : List Token)
    (id d : Nat) (w : String) (h : 4 < strLen w) :
    gptStep rand text (acc, id, d) w
      = (acc ++ gptSubTokens text w id,
         id + (splitIntoGPTSubwords w).length, d) := by
  unfold gptStep
  dsimp only
  rw [if_neg (by omega), if_neg (by omega)]

lemma bertStep_short (rand : Nat → ℚ) (text : String) (acc : List Token)
    (id d : Nat) (w : String) (h : strLen w ≤ 3) :
    bertStep rand text (acc, id, d) w
      = (acc ++ [bertWordToken text w id], id + 1, d) := by
  unfold bertStep
  dsimp only
  rw [if_pos h]

lemma bertStep_medium_nosplit (rand : Nat → ℚ) (text : String) (acc : List Token)
    (id d : Nat) (w : String) (h3 : ¬ strLen w ≤ 3) (h5 : strLen w ≤ 5)
    (hr : ¬ rand d > 6/10) :
    bertStep rand text (acc, id, d) w
      = (acc ++ [bertWordToken text w id], id + 1, d + 1) := by
  unfold bertStep
  dsimp only
  rw [if_neg h3, if_pos h5, if_neg hr]

lemma bertStep_medium_split (rand : Nat → ℚ) (text : String) (acc : List Token)
    (id d : Nat) (w : String) (h3 : ¬ strLen w ≤ 3) (h5 : strLen w ≤ 5)
    (hr : rand d > 6/10) :
    bertStep rand text (acc, id, d) w
      = (acc ++ bertSubTokens text w id,
         id + (splitIntoBERTSubwords w).length, d + 1) := by
  unfold bertStep
  dsimp only
  rw [if_neg h3, if_pos h5, if_pos hr]

lemma bertStep_long (rand : Nat → ℚ) (text : String) (acc : List Token)
    (id d : Nat) (w : String) (h : 5 < strLen w) :
    bertStep rand text (acc, id, d) w
      = (acc ++ bertSubTokens text w id,
         id + (splitIntoBERTSubwords w).length, d) := by
  unfold bertStep
  dsimp only
  rw [if_neg (by omega), if_neg (by omega)]

lemma gptSubTokens_length (text w : String) (id : Nat) :
    (gptSubTokens text w id).length = (splitIntoGPTSubwords w).length := by
  unfold gptSubTokens
  simp

lemma bertSubTokens_length (text w : String) (id : Nat) :
    (bertSubTokens text w id).length = (splitIntoBERTSubwords w).length := by
  unfold bertSubTokens
  simp

lemma gptSubTokens_fields (text w : String) (id : Nat) :
    ∀ t ∈ gptSubTokens text w id,
      t.subword = true ∧ t.type = "subword" ∧ t.parentWord = some w := by
  intro t ht
  unfold gptSubTokens at ht
  rw [List.mem_mapIdx] at ht
  obtain ⟨i, hi, ht⟩ := ht
  rw [← ht]
  exact ⟨rfl, rfl, rfl⟩

lemma bertSubTokens_fields (text w : String) (id : Nat) :
    ∀ t ∈ bertSubTokens text w id,
      t.subword = true ∧ t.type = "subword" ∧ t.parentWord = some w := by
  intro t ht
  unfold bertSubTokens at ht
  rw [List.mem_mapIdx] at ht
  obtain ⟨i, hi, ht⟩ := ht
  rw [← ht]
  exact ⟨rfl, rfl, rfl⟩

lemma two_le_splitIntoGPTSubwords_length (w : String) (h : 3 < strLen w) :
    2 ≤ (splitIntoGPTSubwords w).length := by
  unfold splitIntoGPTSubwords
  rw [if_neg (by omega)]
  by_cases hh : w.data.contains '-' = true
  · rw [if_pos hh]
    rw [splitOnChar_length]
    have hmem : '-' ∈ w.data := by simpa using hh
    have hcount : 0 < w.data.count '-' := List.count_pos_iff.mpr hmem
    omega
  · rw [if_neg hh]
    cases gptPrefixes.find? _ with
    | some pfx => simp
    | none =>
      cases gptSuffixes.find? _ with
      | some sfx => simp
      | none => simp

lemma two_le_splitIntoBERTSubwords_length (w : String) (h : 3 < strLen w) :
    2 ≤ (splitIntoBERTSubwords w).length := by
  unfold splitIntoBERTSubwords
  rw [if_neg (by omega)]
  by_cases hh : w.data.contains '-' = true
  · rw [if_pos hh]
    rw [splitOnChar_length]
    have hmem : '-' ∈ w.data := by simpa using hh
    have hcount : 0 < w.data.count '-' := List.count_pos_iff.mpr hmem
    omega
  · rw [if_neg hh]
    cases bertPrefixes.find? _ with
    | some pfx => simp
    | none =>
      cases bertSuffixes.find? _ with
      | some sfx => simp
      | none =>
        by_cases h6 : 6 < strLen w <;> simp [h6]

/-- C7: for every word and every random stream, a GPT word of length at
most 2 (BERT: at most 3) is emitted as one unsplit word token without
consuming a draw, while a GPT word of length more than 4 (BERT: more than
5) is always split: its step appends only subword tokens, at least two of
them, again without consuming a draw. -/
theorem c7_split_thresholds :
    (∀ (rand : Nat → ℚ) (text : String) (acc : List Token) (id d : Nat)
        (w : String), strLen w ≤ 2 →
      gptStep rand text (acc, id, d) w
        = (acc ++ [gptWordToken text w id], id + 1, d)
      ∧ (gptWordToken text w id).subword = false
      ∧ (gptWordToken text w id).type = "word")
    ∧ (∀ (rand : Nat → ℚ) (text : String) (acc : List Token) (id d : Nat)
        (w : String), 4 < strLen w →
      gptStep rand text (acc, id, d) w
        = (acc ++ gptSubTokens text w id,
           id + (splitIntoGPTSubwords w).length, d)
      ∧ 2 ≤ (gptSubTokens text w id).length
      ∧ ∀ t ∈ gptSubTokens text w id, t.subword = true)
    ∧ (∀ (rand : Nat → ℚ) (text : String) (acc : List Token) (id d : Nat)
        (w : String), strLen w ≤ 3 →
      bertStep rand text (acc, id, d) w
        = (acc ++ [bertWordToken text w id], id + 1, d)
      ∧ (bertWordToken text w id).subword = false
      ∧ (bertWordToken text w id).type = "word")
    ∧ (∀ (rand : Nat → ℚ) (text : String) (acc : List Token) (id d : Nat)
        (w : String), 5 < strLen w →
      bertStep rand text (acc, id, d) w
        = (acc ++ bertSubTokens text w id,
           id + (splitIntoBERTSubwords w).length, d)
      ∧ 2 ≤ (bertSubTokens text w id).length
      ∧ ∀ t ∈ bertSubTokens text w id, t.subword = true) := by
  refine ⟨?_, ?_, ?_, ?_⟩
  · intro rand text acc id d w h
    exact ⟨gptStep_short rand text acc id d w h, rfl, rfl⟩
  · intro rand text acc id d w h
    refine ⟨gptStep_long rand text acc id d w h, ?_, ?_⟩
    · rw [gptSubTokens_length]
      exact two_le_splitIntoGPTSubwords_length w (by omega)
    · intro t ht
      exact (gptSubTokens_fields text w id t ht).1
  · intro rand text acc id d w h
    exact ⟨bertStep_short rand text acc id d w h, rfl, rfl⟩
  · intro rand text acc id d w h
    refine ⟨bertStep_long rand text acc id d w h, ?_, ?_⟩
    · rw [bertSubTokens_length]
      exact two_le_splitIntoBERTSubwords_length w (by omega)
    · intro t ht
      exact (bertSubTokens_fields text w id t ht).1

/-- Witness for C7: the two-character word hi is emitted unsplit by the GPT
step, and the six-character word overly is split by the BERT step into at
least two subword tokens, for the all-zero draw stream. -/
theorem c7_split_thresholds_witness :
    gptStep (fun _ => 0) "hi" ([], 0, 0) "hi"
      = ([gptWordToken "hi" "hi" 0], 1, 0)
    ∧ 2 ≤ (bertSubTokens "overly" "overly" 0).length := by
  constructor
  · exact ((c7_split_thresholds.1 (fun _ => 0) "hi" [] 0 0 "hi" (by decide)).1)
  · exact ((c7_split_thresholds.2.2.2 (fun _ => 0) "overly" [] 0 0 "overly"
      (by decide)).2.1)

lemma gptWordToken_length_eq (text w : String) (id : Nat) :
    (gptWordToken text w id).length = strLen (gptWordToken text w id).text := rfl

lemma bertWordToken_length_eq (text w : String) (id : Nat) :
    (bertWordToken text w id).length = strLen (bertWordToken text w id).text := rfl

lemma gptSubTokens_length_eq (text w : String) (id : Nat) :
    ∀ t ∈ gptSubTokens text w id, t.length = strLen t.text := by
  intro t ht
  unfold gptSubTokens at ht
  rw [List.mem_mapIdx] at ht
  obtain ⟨i, hi, ht⟩ := ht
  rw [← ht]

lemma strLen_append (s t : String) :
    strLen (s ++ t) = strLen s + strLen t := by
  unfold strLen
  rw [String.data_append, List.length_append]

lemma bertSubTokens_length_eq (text w : String) (id : Nat) :
    ∀ t ∈ bertSubTokens text w id, t.length = strLen t.text := by
  intro t ht
  unfold bertSubTokens at ht
  rw [List.mem_mapIdx] at ht
  obtain ⟨i, hi, ht⟩ := ht
  rw [← ht]
  cases i with
  | zero => simp
  | succ k =>
    dsimp only
    rw [if_neg (Nat.succ_ne_zero k), if_pos (Nat.succ_pos k), strLen_append]
    have h2 : strLen "##" = 2 := rfl
    omega

lemma gptStep_preserves_length_eq (rand : Nat → ℚ) (text : String)
    (st : List Token × Nat × Nat) (w : String)
    (hst : ∀ t ∈ st.1, t.length = strLen t.text) :
    ∀ t ∈ (gptStep rand text st w).1, t.length = strLen t.text := by
  obtain ⟨acc, id, d⟩ := st
  intro t ht
  by_cases h2 : strLen w ≤ 2
  · rw [gptStep_short rand text acc id d w h2] at ht
    rcases List.mem_append.mp ht with hmem | hmem
    · exact hst t hmem
    · rw [List.mem_singleton.mp hmem]
      exact gptWordToken_length_eq text w id
  · by_cases h4 : strLen w ≤ 4
    · by_cases hr : rand d > 7/10
      · rw [gptStep_medium_split rand text acc id d w h2 h4 hr] at ht
        rcases List.mem_append.mp ht with hmem | hmem
        · exact hst t hmem
        · exact gptSubTokens_length_eq text w id t hmem
      · rw [gptStep_medium_nosplit rand text acc id d w h2 h4 hr] at ht
        rcases List.mem_append.mp ht with hmem | hmem
        · exact hst t hmem
        · rw [List.mem_singleton.mp hmem]
          exact gptWordToken_length_eq text w id
    · rw [gptStep_long rand text acc id d w (by omega)] at ht
      rcases List.mem_append.mp ht with hmem | hmem
      · exact hst t hmem
      · exact gptSubTokens_length_eq text w id t hmem

lemma bertStep_preserves_length_eq (rand : Nat → ℚ) (text : String)
    (st : List Token × Nat × Nat) (w : String)
    (hst : ∀ t ∈ st.1, t.length = strLen t.text) :
    ∀ t ∈ (bertStep rand text st w).1, t.length = strLen t.text := by
  obtain ⟨acc, id, d⟩ := st
  intro t ht
  by_cases h3 : strLen w ≤ 3
  · rw [bertStep_short rand text acc id d w h3] at ht
    rcases List.mem_append.mp ht with hmem | hmem
    · exact hst t hmem
    · rw [List.mem_singleton.mp hmem]
      exact bertWordToken_length_eq text w id
  · by_cases h5 : strLen w ≤ 5
    · by_cases hr : rand d > 6/10
      · rw [bertStep_medium_split rand text acc id d w h3 h5 hr] at ht
        rcases List.mem_append.mp ht with hmem | hmem
        · exact hst t hmem
        · exact bertSubTokens_length_eq text w id t hmem
      · rw [bertStep_medium_nosplit rand text acc id d w h3 h5 hr] at ht
        rcases List.mem_append.mp ht with hmem | hmem
        · exact hst t hmem
        · rw [List.mem_singleton.mp hmem]
          exact bertWordToken_length_eq text w id
    · rw [bertStep_long rand text acc id d w (by omega)] at ht
      rcases List.mem_append.mp ht with hmem | hmem
      · exact hst t hmem
      · exact bertSubTokens_length_eq text w id t hmem

lemma foldl_gptStep_preserves_length_eq (rand : Nat → ℚ) (text : String) :
    ∀ (ws : List String) (st : List Token × Nat × Nat),
      (∀ t ∈ st.1, t.length = strLen t.text) →
      ∀ t ∈ (ws.foldl (gptStep rand text) st).1, t.length = strLen t.text
  | [], st, hst => hst
  | w :: ws, st, hst =>
    foldl_gptStep_preserves_length_eq rand text ws (gptStep rand text st w)
      (gptStep_preserves_length_eq rand text st w hst)

lemma foldl_bertStep_preserves_length_eq (rand : Nat → ℚ) (text : String) :
    ∀ (ws : List String) (st : List Token × Nat × Nat),
      (∀ t ∈ st.1, t.length = strLen t.text) →
      ∀ t ∈ (ws.foldl (bertStep rand text) st).1, t.length = strLen t.text
  | [], st, hst => hst
  | w :: ws, st, hst =>
    foldl_bertStep_preserves_length_eq rand text ws (bertStep rand text st w)
      (bertStep_preserves_length_eq rand text st w hst)

/-- C10: every token either tokenizer emits, special tokens and BERT
continuation pieces included, has its length field equal to the character
count of its displayed text. -/
theorem c10_token_length_invariant (rand : Nat → ℚ) (text : String) :
    (∀ t ∈ simulateGPTTokenization rand text, t.length = strLen t.text)
    ∧ (∀ t ∈ simulateBERTTokenization rand text, t.length = strLen t.text) := by
  constructor
  · intro t ht
    exact foldl_gptStep_preserves_length_eq rand text (splitWhitespace text)
      ([], 0, 0) (by intro u hu; cases hu) t ht
  · intro t ht
    unfold simulateBERTTokenization at ht
    rcases List.mem_cons.mp ht with hcls | hmem
    · rw [hcls]
      rfl
    · rcases List.mem_append.mp hmem with hbody | hsep
      · exact foldl_bertStep_preserves_length_eq rand text (splitWhitespace text)
          ([], 1, 0) (by intro u hu; cases hu) t hbody
      · rw [List.mem_singleton.mp hsep]
        rfl

/-- Witness for C10: the first token the GPT tokenizer emits for hi has its
length equal to the character count of its text. -/
theorem c10_token_length_invariant_witness :
    ((simulateGPTTokenization (fun _ => 0) "hi").headI).length
      = strLen ((simulateGPTTokenization (fun _ => 0) "hi").headI).text :=
  (c10_token_length_invariant (fun _ => 0) "hi").1 _
    (headI_mem_of_ne_nil (by decide))

lemma gptStep_shape (rand : Nat → ℚ) (text : String) (acc : List Token)
    (id d : Nat) (w : String) :
    ∃ new d2, gptStep rand text (acc, id, d) w
      = (acc ++ new, id + new.length, d2) := by
  by_cases h2 : strLen w ≤ 2
  · exact ⟨[gptWordToken text w id], d, by rw [gptStep_short rand text acc id d w h2]; rfl⟩
  · by_cases h4 : strLen w ≤ 4
    · by_cases hr : rand d > 7/10
      · refine ⟨gptSubTokens text w id, d + 1, ?_⟩
        rw [gptStep_medium_split rand text acc id d w h2 h4 hr,
          gptSubTokens_length]
      · exact ⟨[gptWordToken text w id], d + 1,
          by rw [gptStep_medium_nosplit rand text acc id d w h2 h4 hr]; rfl⟩
    · refine ⟨gptSubTokens text w id, d, ?_⟩
      rw [gptStep_long rand text acc id d w (by omega), gptSubTokens_length]

lemma bertStep_shape (rand : Nat → ℚ) (text : String) (acc : List Token)
    (id d : Nat) (w : String) :
    ∃ new d2, bertStep rand text (acc, id, d) w
      = (acc ++ new, id + new.length, d2) := by
  by_cases h3 : strLen w ≤ 3
  · exact ⟨[bertWordToken text w id], d, by rw [bertStep_short rand text acc id d w h3]; rfl⟩
  · by_cases h5 : strLen w ≤ 5
    · by_cases hr : rand d > 6/10
      · refine ⟨bertSubTokens text w id, d + 1, ?_⟩
        rw [bertStep_medium_split rand text acc id d w h3 h5 hr,
          bertSubTokens_length]
      · exact ⟨[bertWordToken text w id], d + 1,
          by rw [bertStep_medium_nosplit rand text acc id d w h3 h5 hr]; rfl⟩
    · refine ⟨bertSubTokens text w id, d, ?_⟩
      rw [bertStep_long rand text acc id d w (by omega), bertSubTokens_length]

lemma foldl_gptStep_shape (rand : Nat → ℚ) (text : String) :
    ∀ (ws : List String) (acc : List Token) (id d : Nat),
      ∃ new d2, ws.foldl (gptStep rand text) (acc, id, d)
        = (acc ++ new, id + new.length, d2)
  | [], acc, id, d => ⟨[], d, by simp⟩
  | w :: ws, acc, id, d => by
    rw [List.foldl_cons]
    obtain ⟨n1, d1, hstep⟩ := gptStep_shape rand text acc id d w
    rw [hstep]
    obtain ⟨n2, d2, hrest⟩ :=
      foldl_gptStep_shape rand text ws (acc ++ n1) (id + n1.length) d1
    refine ⟨n1 ++ n2, d2, ?_⟩
    rw [hrest, List.append_assoc, List.length_append]
    ring_nf

lemma foldl_bertStep_shape (rand : Nat → ℚ) (text : String) :
    ∀ (ws : List String) (acc : List Token) (id d : Nat),
      ∃ new d2, ws.foldl (bertStep rand text) (acc, id, d)
        = (acc ++ new, id + new.length, d2)
  | [], acc, id, d => ⟨[], d, by simp⟩
  | w :: ws, acc, id, d => by
    rw [List.foldl_cons]
    obtain ⟨n1, d1, hstep⟩ := bertStep_shape rand text acc id d w
    rw [hstep]
    obtain ⟨n2, d2, hrest⟩ :=
      foldl_bertStep_shape rand text ws (acc ++ n1) (id + n1.length) d1
    refine ⟨n1 ++ n2, d2, ?_⟩
    rw [hrest, List.append_assoc, List.length_append]
    ring_nf

lemma bertBodyState_tokenId (rand : Nat → ℚ) (text : String) :
    (bertBodyState rand text).2.1 = 1 + (bertBodyState rand text).1.length := by
  unfold bertBodyState
  obtain ⟨new, d2, hshape⟩ :=
    foldl_bertStep_shape rand text (splitWhitespace text) [] 1 0
  rw [hshape]
  simp [Nat.add_comm]

lemma splitWhitespaceStep_eq (c : Char) (st : List (List Char) × Bool) :
    splitWhitespaceStep c st
      = if c.isWhitespace then
          if st.2 then (st.1, true) else ([] :: st.1, true)
        else
          match st.1 with
          | [] => ([[c]], false)
          | p :: ps => ((c :: p) :: ps, false) := by
  obtain ⟨pieces, prevWS⟩ := st
  rfl

lemma foldr_splitWhitespaceStep_inv :
    ∀ cs : List Char,
      (cs.foldr splitWhitespaceStep ([[]], false)).1 ≠ []
      ∧ ((cs.foldr splitWhitespaceStep ([[]], false)).2 = true →
          ∃ rest, (cs.foldr splitWhitespaceStep ([[]], false)).1 = [] :: rest)
  | [] => ⟨by simp, by simp⟩
  | c :: cs => by
    obtain ⟨hne, hflag⟩ := foldr_splitWhitespaceStep_inv cs
    rw [List.foldr_cons, splitWhitespaceStep_eq]
    by_cases hws : c.isWhitespace = true
    · rw [if_pos hws]
      by_cases hprev : (cs.foldr splitWhitespaceStep ([[]], false)).2 = true
      · rw [if_pos hprev]
        exact ⟨hne, fun _ => hflag hprev⟩
      · rw [if_neg hprev]
        exact ⟨by simp, fun _ => ⟨_, rfl⟩⟩
    · rw [if_neg hws]
      cases hp : (cs.foldr splitWhitespaceStep ([[]], false)).1 with
      | nil => exact absurd hp hne
      | cons p ps =>
        refine ⟨by simp, ?_⟩
        intro hfalse
        simp at hfalse

lemma splitWhitespace_leading_ws (text : String) (c : Char) (cs : List Char)
    (hdata : text.data = c :: cs) (hws : c.isWhitespace = true) :
    ∃ rest, splitWhitespace text = "" :: rest := by
  unfold splitWhitespace
  rw [hdata, List.foldr_cons, splitWhitespaceStep_eq, if_pos hws]
  obtain ⟨hne, hflag⟩ := foldr_splitWhitespaceStep_inv cs
  by_cases hprev : (cs.foldr splitWhitespaceStep ([[]], false)).2 = true
  · rw [if_pos hprev]
    obtain ⟨rest, hrest⟩ := hflag hprev
    rw [hrest]
    exact ⟨rest.map (fun p => String.mk p), rfl⟩
  · rw [if_neg hprev]
    exact ⟨_, rfl⟩

lemma strIndexOf_empty (text : String) : strIndexOf text "" = 0 := by
  unfold strIndexOf
  have hnil : "".data = ([] : List Char) := by decide
  rw [List.range_succ_eq_map, List.find?_cons_of_pos _ (by simp [hnil, List.isPrefixOf])]
  rfl

lemma gptWordToken_empty (text : String) :
    gptWordToken text "" 0
      = { id := 0, text := "", start := 0, «end» := 0, type := "word",
          length := 0, subword := false, parentWord := none } := by
  unfold gptWordToken
  rw [strIndexOf_empty]
  rfl

lemma bertWordToken_empty (text : String) :
    bertWordToken text "" 1
      = { id := 1, text := "", start := 0, «end» := 0, type := "word",
          length := 0, subword := false, parentWord := none } := by
  unfold bertWordToken
  rw [strIndexOf_empty]
  rfl

/-- C6 counterexample: on the input consisting of a space followed by the
letter a, the GPT tokenizer emits two tokens whose texts are the empty
string and a: the empty result of splitting the leading whitespace is not
skipped, refuting the claim that no emitted token has empty text. -/
theorem c6_whitespace_skipping_counterexample :
    (simulateGPTTokenization (fun _ => 0) " a").map (fun t => t.text) = ["", "a"]
    ∧ ¬ (∀ t ∈ simulateGPTTokenization (fun _ => 0) " a", t.text ≠ "") := by
  refine ⟨by decide, by decide⟩

/-- C6 amended: the tokenizer splits the text on runs of whitespace, but
the empty strings produced at a leading (symmetrically, trailing)
whitespace boundary are NOT skipped: each is emitted as a token with empty
text and length 0.  For a text starting with whitespace, the GPT
tokenizer's first token is the empty-text token with id 0, and the BERT
tokenizer's token after [CLS] is the empty-text token with id 1. -/
theorem c6_whitespace_not_skipped_amended (rand : Nat → ℚ) (text : String)
    (c : Char) (cs : List Char) (hdata : text.data = c :: cs)
    (hws : c.isWhitespace = true) :
    (simulateGPTTokenization rand text).head?
      = some { id := 0, text := "", start := 0, «end» := 0, type := "word",
               length := 0, subword := false, parentWord := none }
    ∧ (simulateBERTTokenization rand text).get? 1
      = some { id := 1, text := "", start := 0, «end» := 0, type := "word",
               length := 0, subword := false, parentWord := none } := by
  obtain ⟨rest, hwords⟩ := splitWhitespace_leading_ws text c cs hdata hws
  constructor
  · unfold simulateGPTTokenization
    rw [hwords, List.foldl_cons,
      gptStep_short rand text [] 0 0 "" (by decide), List.nil_append]
    obtain ⟨new, d2, hshape⟩ :=
      foldl_gptStep_shape rand text rest [gptWordToken text "" 0] 1 0
    rw [hshape, List.cons_append, List.head?_cons, gptWordToken_empty]
  · unfold simulateBERTTokenization bertBodyState
    rw [hwords, List.foldl_cons,
      bertStep_short rand text [] 1 0 "" (by decide), List.nil_append]
    obtain ⟨new, d2, hshape⟩ :=
      foldl_bertStep_shape rand text rest [bertWordToken text "" 1] 2 0
    rw [hshape]
    simp [bertWordToken_empty]

/-- Witness for C6 amended: for the input of a space followed by a, the
first GPT token is the empty-text token. -/
theorem c6_whitespace_not_skipped_amended_witness :
    (simulateGPTTokenization (fun _ => 0) " a").head?
      = some { id := 0, text := "", start := 0, «end» := 0, type := "word",
               length := 0, subword := false, parentWord := none } :=
  (c6_whitespace_not_skipped_amended (fun _ => 0) " a" ' ' ['a'] rfl
    (by decide)).1

/-- C3 counterexample: with every draw equal to 0.7, the four-character
word love is medium for BERT and its draw exceeds 0.6, so it is split into
lo and ##ve; the input I love you then yields 6 tokens, not 5 as the claim
states. -/
theorem c3_bert_scenario_counterexample :
    (simulateBERTTokenization (fun _ => 7/10) "I love you").map (fun t => t.text)
      = ["[CLS]", "I", "lo", "##ve", "you", "[SEP]"]
    ∧ (simulateBERTTokenization (fun _ => 7/10) "I love you").length ≠ 5 := by
  have hwords : splitWhitespace "I love you" = ["I", "love", "you"] := by decide
  have hr : ((fun _ => (7:ℚ)/10) 0) > 6/10 := by norm_num
  unfold simulateBERTTokenization bertBodyState
  rw [hwords, List.foldl_cons,
    bertStep_short (fun _ => 7/10) "I love you" [] 1 0 "I" (by decide),
    List.nil_append, List.foldl_cons,
    bertStep_medium_split (fun _ => 7/10) "I love you" _ 2 0 "love"
      (by decide) (by decide) hr,
    List.foldl_cons,
    bertStep_short (fun _ => 7/10) "I love you" _ _ 1 "you" (by decide),
    List.foldl_nil]
  refine ⟨by decide, by decide⟩

/-- C3 amended: BERT tokenization always prepends the [CLS] special token
(id 0, offsets 0/0, length 5) and appends the [SEP] special token (offsets
text.length/text.length, length 5) around the word-derived tokens, so the
total count is the word-derived count plus 2.  For the input I love you,
the words I and you (lengths 1 and 3) are always unsplit, but love has
length 4, which is medium for BERT: the output is exactly the 5 tokens
[CLS], I, love, you, [SEP] when the draw for love is at most 0.6, and 6
tokens (love split into lo and ##ve) when the draw exceeds 0.6. -/
theorem c3_bert_special_tokens_amended :
    (∀ (rand : Nat → ℚ) (text : String),
      simulateBERTTokenization rand text
        = bertCLSToken :: (bertBodyState rand text).1
            ++ [bertSEPToken text (1 + (bertBodyState rand text).1.length)]
      ∧ (simulateBERTTokenization rand text).length
          = (bertBodyState rand text).1.length + 2)
    ∧ bertCLSToken = ⟨0, "[CLS]", 0, 0, "special", 5, false, none⟩
    ∧ (∀ (text : String) (n : Nat), bertSEPToken text n
        = ⟨n, "[SEP]", (strLen text : Int), (strLen text : Int), "special", 5,
           false, none⟩)
    ∧ (∀ rand : Nat → ℚ, rand 0 ≤ 6/10 →
        (simulateBERTTokenization rand "I love you").map (fun t => t.text)
          = ["[CLS]", "I", "love", "you", "[SEP]"]
        ∧ (simulateBERTTokenization rand "I love you").length = 5) := by
  refine ⟨?_, rfl, fun text n => rfl, ?_⟩
  · intro rand text
    constructor
    · unfold simulateBERTTokenization
      rw [bertBodyState_tokenId rand text]
    · unfold simulateBERTTokenization
      simp only [List.length_cons, List.length_append, List.length_nil]
  · intro rand h
    have hwords : splitWhitespace "I love you" = ["I", "love", "you"] := by decide
    have hnr : ¬ rand 0 > 6/10 := not_lt.mpr h
    unfold simulateBERTTokenization bertBodyState
    rw [hwords, List.foldl_cons,
      bertStep_short rand "I love you" [] 1 0 "I" (by decide),
      List.nil_append, List.foldl_cons,
      bertStep_medium_nosplit rand "I love you" _ 2 0 "love"
        (by decide) (by decide) hnr,
      List.foldl_cons,
      bertStep_short rand "I love you" _ 3 1 "you" (by decide),
      List.foldl_nil]
    refine ⟨by decide, by decide⟩

/-- Witness for C3 amended: with the all-zero draw stream (draw 0 is at
most 0.6), the input I love you yields exactly the five token texts
[CLS], I, love, you, [SEP]. -/
theorem c3_bert_special_tokens_amended_witness :
    (0 : ℚ) ≤ 6/10
    ∧ (simulateBERTTokenization (fun _ => 0) "I love you").map (fun t => t.text)
        = ["[CLS]", "I", "love", "you", "[SEP]"] :=
  ⟨by norm_num,
    (c3_bert_special_tokens_amended.2.2.2 (fun _ => 0) (by norm_num)).1⟩

end LlmExploration
